import Mathlib

/-!
Shallow embedding of `src/inventory2.py`, a single-user inventory and lending
tracker.  Python dictionaries are modelled as association lists with unique
keys (insertion order preserved, as in CPython); file contents are modelled as
optional lists of lines (`none` = file absent); the interactive `input()` calls
of each menu operation become explicit parameters.  Exceptions that escape a
method (`KeyError`) are modelled as an explicit outcome, carrying the state at
the moment the exception was raised.
-/

namespace Inventory2

/-! ### Python string primitives -/

/-- Embeds Python `str.strip()` on a character list: drop ASCII whitespace
from both ends. -/
def stripChars (s : List Char) : List Char :=
  ((s.dropWhile Char.isWhitespace).reverse.dropWhile Char.isWhitespace).reverse

/-- Embeds Python `str.strip()`. -/
def pyStrip (s : String) : String :=
  ⟨stripChars s.data⟩

/-- Embeds Python `str.lower()` (ASCII range): lowercase every character. -/
def pyLower (s : String) : String :=
  ⟨s.data.map Char.toLower⟩

/-- Does the second list start with the first one? -/
def beginsWith : List Char → List Char → Bool
  | [], _ => true
  | _ :: _, [] => false
  | a :: as, b :: bs => a == b && beginsWith as bs

/-- Worker for `splitChars`, structurally recursive on a fuel bound (any
fuel above the list length computes the split; the fuel-0 branch is never
reached from `splitChars`). -/
def splitCharsAux (s0 : Char) (sep : List Char) : Nat → List Char → List (List Char)
  | 0, s => [s]
  | _ + 1, [] => [[]]
  | fuel + 1, c :: rest =>
    if beginsWith (s0 :: sep) (c :: rest) then
      [] :: splitCharsAux s0 sep fuel (rest.drop sep.length)
    else
      match splitCharsAux s0 sep fuel rest with
      | [] => [[c]]
      | g :: gs => (c :: g) :: gs

/-- Embeds Python `str.split(sep)` for a non-empty separator `s0 :: sep`:
split at each non-overlapping occurrence of the separator, scanning left to
right. -/
def splitChars (s0 : Char) (sep : List Char) (s : List Char) : List (List Char) :=
  splitCharsAux s0 sep (s.length + 1) s

/-- Embeds Python `str.split(sep)`.  Python raises on an empty separator; the
program only ever splits on `": "` and `" | "`, so that case is mapped to the
trivial split. -/
def pySplit (s : String) (sep : String) : List String :=
  match sep.data with
  | [] => [s]
  | s0 :: rest => (splitChars s0 rest s.data).map (fun l => ⟨l⟩)

/-- Worker for `natToChars`, structurally recursive on a fuel bound (any
fuel above `n` computes the digits; the fuel-0 branch is never reached from
`natToChars`). -/
def natToCharsAux : Nat → Nat → List Char
  | 0, _ => []
  | fuel + 1, n =>
    if n < 10 then [Char.ofNat (48 + n)]
    else natToCharsAux fuel (n / 10) ++ [Char.ofNat (48 + n % 10)]

/-- Decimal digits of a natural number, most significant first
(the digits Python's `str` produces for a non-negative `int`). -/
def natToChars (n : Nat) : List Char :=
  natToCharsAux (n + 1) n

/-- Embeds Python `str(q)` for an `int` value `q`. -/
def pyStr (q : Int) : String :=
  if q < 0 then ⟨'-' :: natToChars (-q).toNat⟩ else ⟨natToChars q.toNat⟩

/-- Value of a list of decimal digit characters, most significant first. -/
def parseNatDigits (s : List Char) : Nat :=
  s.foldl (fun acc c => 10 * acc + (c.toNat - 48)) 0

/-- Embeds Python `int(s)` for decimal literals: strip whitespace, allow one
leading sign, then require a non-empty run of digits; `none` models the
`ValueError` Python raises otherwise. -/
def pyInt? (s : String) : Option Int :=
  match stripChars s.data with
  | [] => none
  | c :: rest =>
    if c = '-' then
      if rest ≠ [] ∧ rest.all Char.isDigit then some (-(parseNatDigits rest : Int)) else none
    else if c = '+' then
      if rest ≠ [] ∧ rest.all Char.isDigit then some (parseNatDigits rest : Int) else none
    else
      if (c :: rest).all Char.isDigit then some (parseNatDigits (c :: rest) : Int) else none

/-! ### Python dictionaries as association lists

CPython dictionaries keep unique keys in insertion order; assigning to an
existing key updates the value in place, assigning to a fresh key appends. -/

/-- `d[k]`, as an `Option` (first matching entry). -/
def dictLookup {β : Type} (k : String) : List (String × β) → Option β
  | [] => none
  | (k', v) :: rest => if k' = k then some v else dictLookup k rest

/-- `k in d`. -/
def dictContains {β : Type} (k : String) (d : List (String × β)) : Bool :=
  (dictLookup k d).isSome

/-- `d[k] = v`: update the existing entry in place, else append. -/
def dictInsert {β : Type} (k : String) (v : β) : List (String × β) → List (String × β)
  | [] => [(k, v)]
  | (k', v') :: rest =>
    if k' = k then (k', v) :: rest else (k', v') :: dictInsert k v rest

/-- `del d[k]`: remove the entry with key `k`. -/
def dictErase {β : Type} (k : String) : List (String × β) → List (String × β)
  | [] => []
  | (k', v') :: rest => if k' = k then rest else (k', v') :: dictErase k rest

/-- `list(d.keys())`. -/
def dictKeys {β : Type} (d : List (String × β)) : List String :=
  d.map Prod.fst

/-! ### Data model

`User.borrowed_items` and `InventorySystem.inventory` are Python dicts mapping
names to `int` quantities; `InventorySystem.users` maps a borrower's name to
their borrowed-items dict (the `User` object's only other field is the name
itself, which equals its key in `users`). -/

/-- A user's `borrowed_items` dictionary. -/
abbrev Borrowed := List (String × Int)

/-- The `users` dictionary: borrower name to borrowed items. -/
abbrev Users := List (String × Borrowed)

/-- The whole-process state: the two in-memory dicts of `InventorySystem`
plus the contents of the two text files (`none` = the file does not exist;
lines are stored without their trailing newline). -/
structure SysState where
  inventory : List (String × Int)
  users : Users
  invFile : Option (List String)
  logFile : Option (List String)
deriving DecidableEq

/-- How an operation ended.  `success` is the happy path; the other outcomes
name the early-return branch taken (each prints a message in the source), and
`keyError` models an uncaught `KeyError` escaping the method. -/
inductive Outcome where
  | success
  | invalidName
  | invalidQty
  | notFound
  | noItems
  | invalidSelection
  | noRecords
  | insufficientBorrowed
  | keyError
deriving DecidableEq

/-- Embeds `User.borrow_item` (lines 6-11): add to an existing entry or
create a new one. -/
def User.borrow_item (b : Borrowed) (item : String) (qty : Int) : Borrowed :=
  if dictContains item b then
    dictInsert item ((dictLookup item b).getD 0 + qty) b
  else
    dictInsert item qty b

/-- Embeds `User.return_item` (lines 13-21): returns whether the return was
accepted together with the updated `borrowed_items`.  The quantity is
subtracted when the stored amount is `≥ quantity`, and the entry is deleted
when it reaches exactly 0. -/
def User.return_item (b : Borrowed) (item : String) (qty : Int) : Bool × Borrowed :=
  match dictLookup item b with
  | some cur =>
    if cur ≥ qty then
      if cur - qty = 0 then (true, dictErase item b)
      else (true, dictInsert item (cur - qty) b)
    else (false, b)
  | none => (false, b)

/-! ### Persistence -/

/-- Embeds `InventorySystem.save_inventory` (lines 47-52): overwrite the
inventory file with one `"name: qty"` line per item, in dict order. -/
def save_inventory (s : SysState) : SysState :=
  { s with invFile := some (s.inventory.map (fun p => p.1 ++ ": " ++ pyStr p.2)) }

/-- Embeds `InventorySystem.log_transaction` (lines 54-58): append one
`"action | user | item | qty"` line to the transaction log (creating the file
when absent, as `open(..., "a")` does). -/
def log_transaction (s : SysState) (action borrower item : String) (qty : Int) : SysState :=
  let line := action ++ " | " ++ borrower ++ " | " ++ item ++ " | " ++ pyStr qty
  { s with logFile := some ((s.logFile.getD []) ++ [line]) }

/-- Parse one inventory line as `load_inventory`'s loop body does
(line 39-40): `item_name, quantity = line.strip().split(": ")` — exactly two
fields or `ValueError` — then `int(quantity)`. -/
def parseInvLine (line : String) : Option (String × Int) :=
  match pySplit (pyStrip line) ": " with
  | [n, q] => (pyInt? q).map (fun v => (n, v))
  | _ => none

/-- Embeds the loop of `InventorySystem.load_inventory` (lines 34-45) over
the lines of an existing file, starting from inventory `acc`: each parsed
line is assigned into the dict; the first `ValueError` aborts the loop, and
the `except` clause keeps whatever was already assigned. -/
def loadInventoryLoop (acc : List (String × Int)) : List String → List (String × Int)
  | [] => acc
  | line :: rest =>
    match parseInvLine line with
    | some (n, q) => loadInventoryLoop (dictInsert n q acc) rest
    | none => acc

/-- Embeds `InventorySystem.load_inventory` as run from `__init__`
(`self.inventory = {}` first): the in-memory inventory after loading the
given file contents. -/
def load_inventory (lines : List String) : List (String × Int) :=
  loadInventoryLoop [] lines

/-- A parsed transaction-log record: `(action, borrower, item, quantity)`. -/
abbrev Tx := String × String × String × Int

/-- Parse one transaction-log line as `load_transactions`'s loop body does
(lines 65-66): four `" | "`-separated fields, integer quantity. -/
def parseTxLine (line : String) : Option Tx :=
  match pySplit (pyStrip line) " | " with
  | [a, u, i, q] => (pyInt? q).map (fun v => (a, u, i, v))
  | _ => none

/-- One replay step of `load_transactions` (lines 67-70): the borrower's
`User` is created if absent, then `borrow_item` is applied for `"Lend"`
records only. -/
def replayTx (us : Users) (t : Tx) : Users :=
  let us' := if dictContains t.2.1 us then us else dictInsert t.2.1 [] us
  if t.1 = "Lend" then
    dictInsert t.2.1 (User.borrow_item ((dictLookup t.2.1 us').getD []) t.2.2.1 t.2.2.2) us'
  else us'


/-- Embeds the loop of `InventorySystem.load_transactions` (lines 60-75):
replay the log lines in order; the first `ValueError` (malformed line) aborts
the loop, keeping the records already replayed. -/
def loadTransactionsLoop (us : Users) : List String → Users
  | [] => us
  | line :: rest =>
    match parseTxLine line with
    | some t => loadTransactionsLoop (replayTx us t) rest
    | none => us

/-- Embeds `InventorySystem.load_transactions` as run from `__init__`
(`self.users = {}` first). -/
def load_transactions (lines : List String) : Users :=
  loadTransactionsLoop [] lines

/-! ### Menu operations

Each interactive method becomes a function of the state and of the values the
user would have typed; it returns the new state and the outcome. -/

/-- Embeds `InventorySystem.is_valid_item_name` (lines 77-80):
`item_name.isalpha() and len(item_name) > 2`.  Python's `isalpha` is false on
the empty string. -/
def is_valid_item_name (name : String) : Bool :=
  (!name.data.isEmpty && name.data.all Char.isAlpha) && decide (name.length > 2)

/-- Embeds `InventorySystem.add_item` (lines 82-104) with the typed item name
and quantity as parameters.  The name is normalized by `.strip().lower()`;
the validation retry loops become rejecting outcomes that leave the state
unchanged. -/
def add_item (s : SysState) (nameInput : String) (qty : Int) : SysState × Outcome :=
  let name := pyLower (pyStrip nameInput)
  if is_valid_item_name name then
    if qty > 0 then
      let inv' :=
        if dictContains name s.inventory then
          dictInsert name ((dictLookup name s.inventory).getD 0 + qty) s.inventory
        else dictInsert name qty s.inventory
      (save_inventory { s with inventory := inv' }, .success)
    else (s, .invalidQty)
  else (s, .invalidName)

/-- Embeds `InventorySystem.update_item` (lines 244-271).  Note the source
does not strip or lowercase the typed name here; an unknown (but valid) name
falls through silently. -/
def update_item (s : SysState) (nameInput : String) (qty : Int) : SysState × Outcome :=
  if is_valid_item_name nameInput then
    if dictContains nameInput s.inventory then
      if qty ≥ 0 then
        (save_inventory { s with inventory := dictInsert nameInput qty s.inventory }, .success)
      else (s, .invalidQty)
    else (s, .notFound)
  else (s, .invalidName)

/-- Line 155-156 of `lend_item`: create an empty `User` for the borrower
when absent (this happens before any precondition check). -/
def usersWithBorrower (b : String) (us : Users) : Users :=
  if dictContains b us then us else dictInsert b [] us

/-- Embeds the dict comprehension of line 158:
`key.lower() : value for key, value in self.inventory.items() if value > 0`. -/
def availableItems (inv : List (String × Int)) : List (String × Int) :=
  inv.foldl (fun acc p => if p.2 > 0 then dictInsert (pyLower p.1) p.2 acc else acc) []

/-- Embeds `InventorySystem.lend_item` (lines 152-190) with the typed
borrower name, item selection (1-based, as prompted) and quantity as
parameters.  The borrower's `User` is created *before* any precondition
check; on the success path the order is: borrow, inventory decrement, log
append, inventory save.  The decrement `self.inventory[chosen_item] -= ...`
raises `KeyError` when the lowercased chosen key is not an inventory key. -/
def lend_item (s : SysState) (borrowerInput : String) (selection qty : Int) :
    SysState × Outcome :=
  let borrower := pyStrip borrowerInput
  let s1 := { s with users := usersWithBorrower borrower s.users }
  let avail := availableItems s1.inventory
  if avail = [] then (s1, .noItems)
  else
    let idx := selection - 1
    if idx < 0 ∨ idx ≥ (avail.length : Int) then (s1, .invalidSelection)
    else
      let chosen := (avail.getD idx.toNat ("", 0)).1
      let availQty := (dictLookup chosen avail).getD 0
      if qty ≤ 0 ∨ qty > availQty then (s1, .invalidQty)
      else
        let borrowed' :=
          User.borrow_item ((dictLookup borrower s1.users).getD []) chosen qty
        let s2 := { s1 with users := dictInsert borrower borrowed' s1.users }
        match dictLookup chosen s2.inventory with
        | none => (s2, .keyError)
        | some v =>
          let s3 := { s2 with inventory := dictInsert chosen (v - qty) s2.inventory }
          (save_inventory (log_transaction s3 "Lend" borrower chosen qty), .success)

/-- Embeds `InventorySystem.return_item` (lines 192-231) with the typed
borrower name, item selection (1-based) and quantity as parameters.  On a
successful `User.return_item`, the order is: inventory increment (which
raises `KeyError` when the chosen item is missing from the inventory, the
user's borrowed dict being already updated), log append, inventory save. -/
def return_item (s : SysState) (borrowerInput : String) (selection qty : Int) :
    SysState × Outcome :=
  let borrower := pyStrip borrowerInput
  match dictLookup borrower s.users with
  | none => (s, .noRecords)
  | some borrowed =>
    if borrowed = [] then (s, .noRecords)
    else
      let idx := selection - 1
      if idx < 0 ∨ idx ≥ (borrowed.length : Int) then (s, .invalidSelection)
      else
        let chosen := (borrowed.getD idx.toNat ("", 0)).1
        let r := User.return_item borrowed chosen qty
        if r.1 then
          let s2 := { s with users := dictInsert borrower r.2 s.users }
          match dictLookup chosen s2.inventory with
          | none => (s2, .keyError)
          | some v =>
            let s3 := { s2 with inventory := dictInsert chosen (v + qty) s2.inventory }
            (save_inventory (log_transaction s3 "Return" borrower chosen qty), .success)
        else (s, .insufficientBorrowed)

/-- One menu operation with the values the user would type. -/
inductive Op where
  | add (name : String) (qty : Int)
  | update (name : String) (qty : Int)
  | lend (borrower : String) (selection qty : Int)
  | ret (borrower : String) (selection qty : Int)

/-- Run one operation, keeping the state it leaves behind (also on failure
or on an escaping `KeyError`). -/
def applyOp (s : SysState) : Op → SysState
  | .add n q => (add_item s n q).1
  | .update n q => (update_item s n q).1
  | .lend b sel q => (lend_item s b sel q).1
  | .ret b sel q => (return_item s b sel q).1

/-- Run a sequence of menu operations. -/
def runOps (s : SysState) (ops : List Op) : SysState :=
  ops.foldl applyOp s

/-! ### Observables and spec-side definitions -/

/-- The in-memory borrowed quantity of user `u` for item `i` (0 when the
user or the entry is absent). -/
def borrowedQty (us : Users) (u i : String) : Int :=
  (dictLookup i ((dictLookup u us).getD [])).getD 0

/-- The longest prefix of the log lines that parses, as records — exactly
the records `load_transactions` replays before a malformed line stops it. -/
def parsedRecords : List String → List Tx
  | [] => []
  | line :: rest =>
    match parseTxLine line with
    | some t => t :: parsedRecords rest
    | none => []

/-- Sum of the `"Lend"` quantities for the pair `(u, i)` over a record
list. -/
def sumLendQty (ts : List Tx) (u i : String) : Int :=
  ((ts.filter (fun t => t.1 == "Lend" && t.2.1 == u && t.2.2.1 == i)).map
    (fun t => t.2.2.2)).sum

/-- Modelled from the spec's reconstruction rule (§3): the sum of all
`"Lend"` quantities for `(u, i)` minus the sum of all `"Return"` quantities
for `(u, i)`, in log order.  Stated from the spec's words, to be compared
with what the code computes. -/
def specNetBorrowed (ts : List Tx) (u i : String) : Int :=
  ts.foldl
    (fun acc t =>
      if t.2.1 = u ∧ t.2.2.1 = i then
        if t.1 = "Lend" then acc + t.2.2.2
        else if t.1 = "Return" then acc - t.2.2.2
        else acc
      else acc) 0

/-- All inventory quantities are non-negative. -/
def InvNonneg (inv : List (String × Int)) : Prop :=
  ∀ p ∈ inv, 0 ≤ p.2

/-- The inventory is a well-formed Python dict over normalized item names:
unique keys, already lowercase. -/
def InvKeysOk (inv : List (String × Int)) : Prop :=
  (dictKeys inv).Nodup ∧ ∀ p ∈ inv, pyLower p.1 = p.1

/-- Every `ret` operation in the list carries a positive quantity. -/
def PosReturns (ops : List Op) : Prop :=
  ∀ op ∈ ops, match op with
    | Op.ret _ _ q => 0 < q
    | _ => True

/-! ### Generic dictionary lemmas -/

theorem dictLookup_dictInsert_self {β : Type} (k : String) (v : β) (d : List (String × β)) :
    dictLookup k (dictInsert k v d) = some v := by
  induction d with
  | nil => simp [dictInsert, dictLookup]
  | cons p rest ih =>
    by_cases h : p.1 = k
    · simp [dictInsert, dictLookup, h]
    · simpa [dictInsert, dictLookup, h] using ih

theorem dictLookup_dictInsert_ne {β : Type} {k' k : String} (v : β) (d : List (String × β))
    (h : k' ≠ k) : dictLookup k (dictInsert k' v d) = dictLookup k d := by
  induction d with
  | nil => simp [dictInsert, dictLookup, h]
  | cons p rest ih =>
    by_cases hp : p.1 = k'
    · simp [dictInsert, dictLookup, hp, h]
    · by_cases hk : p.1 = k <;> simp [dictInsert, dictLookup, hp, hk, ih, Ne.symm h]

theorem dictLookup_eq_none_iff {β : Type} {k : String} {d : List (String × β)} :
    dictLookup k d = none ↔ k ∉ dictKeys d := by
  induction d with
  | nil => simp [dictLookup, dictKeys]
  | cons p rest ih =>
    by_cases h : p.1 = k
    · simp [dictLookup, dictKeys, h, eq_comm]
    · have h' : ¬k = p.1 := fun hk => h hk.symm
      simp [dictLookup, dictKeys, h, h', ih]

theorem dictContains_iff {β : Type} {k : String} {d : List (String × β)} :
    dictContains k d = true ↔ k ∈ dictKeys d := by
  rw [dictContains, Option.isSome_iff_ne_none]
  simp [Ne, dictLookup_eq_none_iff]

theorem dictInsert_of_not_mem {β : Type} {k : String} (v : β) {d : List (String × β)}
    (h : k ∉ dictKeys d) : dictInsert k v d = d ++ [(k, v)] := by
  induction d with
  | nil => simp [dictInsert]
  | cons p rest ih =>
    simp only [dictKeys, List.map_cons, List.mem_cons] at h
    push_neg at h
    simp [dictInsert, Ne.symm h.1, ih (by simpa [dictKeys] using h.2)]

theorem dictLookup_of_mem_nodup {β : Type} {k : String} {v : β} {d : List (String × β)}
    (hN : (dictKeys d).Nodup) (h : (k, v) ∈ d) : dictLookup k d = some v := by
  induction d with
  | nil => simp at h
  | cons p rest ih =>
    simp only [dictKeys, List.map_cons, List.nodup_cons] at hN
    rcases List.mem_cons.mp h with h | h
    · simp [dictLookup, ← h]
    · have hne : p.1 ≠ k := by
        intro hk
        exact hN.1 (by simpa [dictKeys, hk] using List.mem_map_of_mem Prod.fst h)
      simp [dictLookup, hne, ih hN.2 h]

theorem dictLookup_dictErase_self {β : Type} {k : String} {d : List (String × β)}
    (hN : (dictKeys d).Nodup) : dictLookup k (dictErase k d) = none := by
  induction d with
  | nil => simp [dictErase, dictLookup]
  | cons p rest ih =>
    simp only [dictKeys, List.map_cons, List.nodup_cons] at hN
    by_cases h : p.1 = k
    · rw [dictErase, if_pos h, dictLookup_eq_none_iff]
      simpa [dictKeys, h] using hN.1
    · simp [dictErase, dictLookup, h, ih hN.2]

theorem dictLookup_dictErase_ne {β : Type} {k' k : String} {d : List (String × β)}
    (h : k' ≠ k) : dictLookup k (dictErase k' d) = dictLookup k d := by
  induction d with
  | nil => simp [dictErase]
  | cons p rest ih =>
    by_cases hp : p.1 = k'
    · have hpk : ¬p.1 = k := fun hk => h (hp ▸ hk)
      simp [dictErase, dictLookup, hp, hpk, h, Ne.symm h]
    · by_cases hk : p.1 = k <;> simp [dictErase, dictLookup, hp, hk, ih, Ne.symm h]

theorem dictKeys_append {β : Type} (a b : List (String × β)) :
    dictKeys (a ++ b) = dictKeys a ++ dictKeys b := by
  simp [dictKeys]

theorem dictLookup_append_of_not_mem {β : Type} {k : String} {a : List (String × β)}
    (b : List (String × β)) (h : k ∉ dictKeys a) :
    dictLookup k (a ++ b) = dictLookup k b := by
  induction a with
  | nil => simp
  | cons p rest ih =>
    simp only [dictKeys, List.map_cons, List.mem_cons] at h
    push_neg at h
    simp [dictLookup, Ne.symm h.1, ih (by simpa [dictKeys] using h.2)]

theorem dictErase_append_singleton {β : Type} {k : String} {a : List (String × β)} (v : β)
    (h : k ∉ dictKeys a) : dictErase k (a ++ [(k, v)]) = a := by
  induction a with
  | nil => simp [dictErase]
  | cons p rest ih =>
    simp only [dictKeys, List.map_cons, List.mem_cons] at h
    push_neg at h
    simp [dictErase, Ne.symm h.1, ih (by simpa [dictKeys] using h.2)]

theorem dictLookup_of_getD {β : Type} (x : String × β) {d : List (String × β)}
    (hN : (dictKeys d).Nodup) {i : Nat} (hi : i < d.length) :
    dictLookup (d.getD i x).1 d = some (d.getD i x).2 := by
  have hmem : d.getD i x ∈ d := by
    rw [List.getD_eq_getElem?_getD, List.getElem?_eq_getElem hi]
    exact List.getElem_mem hi
  exact dictLookup_of_mem_nodup hN (by simpa using hmem)

/-! ### Behaviour of `User.borrow_item` -/

theorem borrow_item_lookup (b : Borrowed) (item : String) (q : Int) (i : String) :
    dictLookup i (User.borrow_item b item q) =
      (if item = i then some ((dictLookup item b).getD 0 + q) else dictLookup i b) := by
  rw [User.borrow_item]
  by_cases hc : dictContains item b
  · by_cases hi : item = i
    · subst hi; simp [hc, dictLookup_dictInsert_self]
    · simp [hc, hi, dictLookup_dictInsert_ne _ _ hi]
  · have hnone : dictLookup item b = none := by
      by_contra hsome
      exact hc (by simpa [dictContains, Option.isSome_iff_ne_none] using hsome)
    by_cases hi : item = i
    · subst hi; simp [hc, hnone, dictLookup_dictInsert_self]
    · simp [hc, hi, hnone, dictLookup_dictInsert_ne _ _ hi]

/-! ### Replay of the transaction log (claim C2) -/

theorem borrowedQty_replayTx (us : Users) (t : Tx) (u i : String) :
    borrowedQty (replayTx us t) u i =
      borrowedQty us u i +
        (if t.1 = "Lend" ∧ t.2.1 = u ∧ t.2.2.1 = i then t.2.2.2 else 0) := by
  obtain ⟨a, tu, ti, q⟩ := t
  have husers : ∀ w : String,
      (dictLookup w (if dictContains tu us then us else dictInsert tu [] us)).getD [] =
        (dictLookup w us).getD [] := by
    intro w
    by_cases hc : dictContains tu us
    · simp [hc]
    · have hnone : dictLookup tu us = none := by
        by_contra hsome
        exact hc (by simpa [dictContains, Option.isSome_iff_ne_none] using hsome)
      by_cases hw : tu = w
      · subst hw; simp [hc, hnone, dictLookup_dictInsert_self]
      · simp [hc, dictLookup_dictInsert_ne _ _ hw]
  rw [replayTx]
  simp only []
  by_cases ha : a = "Lend"
  · subst ha
    rw [if_pos rfl]
    by_cases hu : tu = u
    · subst hu
      rw [borrowedQty, dictLookup_dictInsert_self, Option.getD_some, borrow_item_lookup,
        husers]
      by_cases hi : ti = i
      · subst hi
        rw [if_pos rfl, if_pos ⟨rfl, rfl, rfl⟩]
        simp [borrowedQty]
      · rw [if_neg hi, if_neg (by simp [hi])]
        simp [borrowedQty]
    · rw [borrowedQty, dictLookup_dictInsert_ne _ _ hu, husers,
        if_neg (by simp [hu])]
      simp [borrowedQty]
  · rw [if_neg ha, if_neg (show ¬(a = "Lend" ∧ tu = u ∧ ti = i) by simp [ha]),
      borrowedQty, borrowedQty, husers, add_zero]

theorem sumLendQty_cons (t : Tx) (ts : List Tx) (u i : String) :
    sumLendQty (t :: ts) u i =
      (if t.1 = "Lend" ∧ t.2.1 = u ∧ t.2.2.1 = i then t.2.2.2 else 0) + sumLendQty ts u i := by
  obtain ⟨a, tu, ti, q⟩ := t
  by_cases hcond : a = "Lend" ∧ tu = u ∧ ti = i
  · obtain ⟨h1, h2, h3⟩ := hcond
    subst h1; subst h2; subst h3
    simp [sumLendQty, List.filter_cons]
  · have hb : ¬(a == "Lend" && tu == u && ti == i) = true := by
      simpa [and_assoc] using hcond
    simp [sumLendQty, List.filter_cons, hb, if_neg hcond]

theorem borrowedQty_loadLoop (lines : List String) (us : Users) (u i : String) :
    borrowedQty (loadTransactionsLoop us lines) u i =
      borrowedQty us u i + sumLendQty (parsedRecords lines) u i := by
  induction lines generalizing us with
  | nil => simp [loadTransactionsLoop, parsedRecords, sumLendQty]
  | cons line rest ih =>
    rw [loadTransactionsLoop, parsedRecords]
    cases hp : parseTxLine line with
    | none => simp [sumLendQty]
    | some t =>
      rw [ih, borrowedQty_replayTx, sumLendQty_cons]
      ring

/-- C2 (amended): after replaying a transaction log, a user's in-memory
borrowed quantity for an item equals the sum of the `"Lend"` quantities for
that pair over the replayed (well-formed prefix of) records — `"Return"`
records are parsed but never applied. -/
theorem C2_replay_sums_lends_only (lines : List String) (u i : String) :
    borrowedQty (load_transactions lines) u i = sumLendQty (parsedRecords lines) u i := by
  have h := borrowedQty_loadLoop lines [] u i
  rw [load_transactions]
  rw [h]
  simp [borrowedQty, dictLookup]

/-- C2 (counterexample): on the log `Lend 3; Return 2` for (alice, hammer),
the replayed in-memory quantity is 3, while the spec's Lend-minus-Return
reconstruction rule gives 1. -/
theorem C2_counterexample :
    borrowedQty
        (load_transactions ["Lend | alice | hammer | 3", "Return | alice | hammer | 2"])
        "alice" "hammer" = 3 ∧
    specNetBorrowed
        (parsedRecords ["Lend | alice | hammer | 3", "Return | alice | hammer | 2"])
        "alice" "hammer" = 1 ∧
    (3 : Int) ≠ 1 := by decide

/-! ### Claim C1: a return with a negative quantity drives inventory negative -/

/-- C1 (code-bug evidence): starting from an all-non-negative state
(hammer stock 5, alice borrowed 3), the single return operation with typed
quantity −10 is accepted — `return_item` never checks the sign — and leaves
the hammer stock at −5, which the program then logs and saves. -/
theorem C1_negative_inventory_via_return :
    InvNonneg [("hammer", (5 : Int))] ∧
    (return_item ⟨[("hammer", 5)], [("alice", [("hammer", 3)])], none, none⟩
        "alice" 1 (-10)).2 = Outcome.success ∧
    dictLookup "hammer"
      (runOps ⟨[("hammer", 5)], [("alice", [("hammer", 3)])], none, none⟩
        [Op.ret "alice" 1 (-10)]).inventory = some (-5) ∧
    ¬ InvNonneg
      (runOps ⟨[("hammer", 5)], [("alice", [("hammer", 3)])], none, none⟩
        [Op.ret "alice" 1 (-10)]).inventory := by
  refine ⟨by unfold InvNonneg; decide, by decide, by decide, ?_⟩
  intro h
  have := h ("hammer", -5) (by decide)
  omega

/-! ### Claim C3: a malformed line does not empty the partial inventory -/

/-- C3 (code-bug evidence): loading a file whose second line is malformed
stops the load but keeps the entry parsed from the first line — the
in-memory inventory is not left empty, although the error message printed
by `load_inventory` claims an empty start. -/
theorem C3_partial_load_kept :
    load_inventory ["hammer: 5", "oops", "drill: 2"] = [("hammer", 5)] ∧
    load_inventory ["hammer: 5", "oops", "drill: 2"] ≠ [] := by decide

/-! ### Claim C7: the per-user give-back operation -/

/-- C7: `User.return_item` returns `false` and leaves the borrowed map
unchanged when the item is not tracked or the quantity exceeds the borrowed
amount; on success it returns `true`, decrements the entry by `qty`, and
removes it exactly when it reaches 0. -/
theorem C7_user_give_back (b : Borrowed) (item : String) (qty : Int)
    (hq : 0 < qty) (hN : (dictKeys b).Nodup) :
    (dictLookup item b = none → User.return_item b item qty = (false, b)) ∧
    (∀ cur, dictLookup item b = some cur → cur < qty →
      User.return_item b item qty = (false, b)) ∧
    (∀ cur, dictLookup item b = some cur → qty ≤ cur →
      (User.return_item b item qty).1 = true ∧
      dictLookup item (User.return_item b item qty).2 =
        (if cur = qty then none else some (cur - qty))) := by
  refine ⟨?_, ?_, ?_⟩
  · intro h; rw [User.return_item, h]
  · intro cur h hlt
    rw [User.return_item, h]
    simp only [ge_iff_le]
    rw [if_neg (not_le.mpr hlt)]
  · intro cur h hle
    rw [User.return_item, h]
    simp only [ge_iff_le]
    rw [if_pos hle]
    by_cases h0 : cur - qty = 0
    · have heq : cur = qty := by omega
      simp [h0, heq, dictLookup_dictErase_self hN]
    · have hne : ¬cur = qty := by omega
      simp [h0, hne, dictLookup_dictInsert_self]

/-- Witness for C7 at a concrete input: returning 2 of 3 borrowed hammers
leaves a tracked entry of 1. -/
theorem C7_user_give_back_witness :
    dictLookup "hammer" (User.return_item [("hammer", (3 : Int))] "hammer" 2).2 = some 1 := by
  have h := C7_user_give_back [("hammer", (3 : Int))] "hammer" 2 (by decide) (by decide)
  have h2 := (h.2.2 3 (by decide) (by decide)).2
  simpa using h2

/-! ### Claim C9: item-name validation -/

/-- C9: the item-name validity check accepts a name exactly when it consists
of alphabetic characters only and is longer than 2 characters; in particular
"ab", "item1" and "" are always rejected (with no state change) by the add
and update operations. -/
theorem C9_name_validation (name : String) (s : SysState) (qty : Int) :
    (is_valid_item_name name = true ↔
      (∀ c ∈ name.data, c.isAlpha = true) ∧ name.length > 2) ∧
    add_item s "ab" qty = (s, Outcome.invalidName) ∧
    update_item s "ab" qty = (s, Outcome.invalidName) ∧
    add_item s "item1" qty = (s, Outcome.invalidName) ∧
    update_item s "item1" qty = (s, Outcome.invalidName) ∧
    add_item s "" qty = (s, Outcome.invalidName) ∧
    update_item s "" qty = (s, Outcome.invalidName) := by
  refine ⟨⟨?_, ?_⟩, rfl, rfl, rfl, rfl, rfl, rfl⟩
  · intro h
    rw [is_valid_item_name, Bool.and_eq_true, Bool.and_eq_true] at h
    exact ⟨List.all_eq_true.mp h.1.2, of_decide_eq_true h.2⟩
  · rintro ⟨h1, h2⟩
    rw [is_valid_item_name, Bool.and_eq_true, Bool.and_eq_true]
    refine ⟨⟨?_, List.all_eq_true.mpr h1⟩, decide_eq_true h2⟩
    have hne : name.data ≠ [] := by
      intro hnil
      have hlen : name.length = name.data.length := rfl
      rw [hnil] at hlen
      simp at hlen
      omega
    cases hd : name.data with
    | nil => exact absurd hd hne
    | cons c t => rfl

/-! ### Claim C10: a return of an item missing from the inventory -/

/-- C10: when a user's borrowed dict holds an item that is absent from the
inventory, a return of that item with quantity ≤ the borrowed amount escapes
with a `KeyError` from the inventory increment: the files and the inventory
are untouched, but the user's borrowed entry has already been decremented
(and pruned when it hit 0). -/
theorem C10_return_keyerror_partial_mutation (s : SysState) (borrower : String)
    (borrowed : Borrowed) (sel qty : Int)
    (hu : dictLookup (pyStrip borrower) s.users = some borrowed)
    (hN : (dictKeys borrowed).Nodup)
    (hsel : 0 ≤ sel - 1) (hsel2 : sel - 1 < (borrowed.length : Int))
    (hinv : dictLookup (borrowed.getD (sel - 1).toNat ("", 0)).1 s.inventory = none)
    (hqty : qty ≤ (borrowed.getD (sel - 1).toNat ("", 0)).2) :
    (return_item s borrower sel qty).2 = Outcome.keyError ∧
    (return_item s borrower sel qty).1.inventory = s.inventory ∧
    (return_item s borrower sel qty).1.invFile = s.invFile ∧
    (return_item s borrower sel qty).1.logFile = s.logFile ∧
    dictLookup (borrowed.getD (sel - 1).toNat ("", 0)).1
        ((dictLookup (pyStrip borrower) (return_item s borrower sel qty).1.users).getD []) =
      (if (borrowed.getD (sel - 1).toNat ("", 0)).2 = qty then none
       else some ((borrowed.getD (sel - 1).toNat ("", 0)).2 - qty)) := by
  have hlen : borrowed ≠ [] := by
    intro h0
    rw [h0] at hsel2
    simp at hsel2
    omega
  have hnat : (sel - 1).toNat < borrowed.length := by omega
  have hcur : dictLookup (borrowed.getD (sel - 1).toNat ("", 0)).1 borrowed =
      some (borrowed.getD (sel - 1).toNat ("", 0)).2 := dictLookup_of_getD ("", 0) hN hnat
  have hnotrange : ¬(sel - 1 < 0 ∨ sel - 1 ≥ (borrowed.length : Int)) := by omega
  rw [return_item, hu]
  simp only [if_neg hlen, if_neg hnotrange]
  rw [User.return_item, hcur]
  simp only [ge_iff_le]
  rw [if_pos hqty]
  by_cases h0 : (borrowed.getD (sel - 1).toNat ("", 0)).2 - qty = 0
  · rw [if_pos h0]
    simp only [if_pos rfl]
    rw [hinv]
    simp only [if_true]
    refine ⟨trivial, trivial, trivial, trivial, ?_⟩
    rw [dictLookup_dictInsert_self]
    simp only [Option.getD_some]
    rw [dictLookup_dictErase_self hN, if_pos (by omega)]
  · rw [if_neg h0]
    simp only [if_pos rfl]
    rw [hinv]
    simp only [if_true]
    refine ⟨trivial, trivial, trivial, trivial, ?_⟩
    rw [dictLookup_dictInsert_self]
    simp only [Option.getD_some]
    rw [dictLookup_dictInsert_self, if_neg (by omega)]

/-- Witness for C10 at a concrete input: alice holds 2 of "ghost" which is
not in the inventory; returning 1 ends in a `KeyError` with her borrowed
entry already decremented to 1. -/
theorem C10_witness :
    (return_item ⟨[], [("alice", [("ghost", 2)])], none, none⟩ "alice" 1 1).2 =
        Outcome.keyError ∧
    dictLookup "ghost"
        ((dictLookup "alice"
          (return_item ⟨[], [("alice", [("ghost", 2)])], none, none⟩ "alice" 1 1).1.users).getD [])
      = some 1 := by
  have h := C10_return_keyerror_partial_mutation
    ⟨[], [("alice", [("ghost", 2)])], none, none⟩ "alice" [("ghost", 2)] 1 1
    (by decide) (by decide) (by decide) (by decide) (by decide) (by decide)
  exact ⟨h.1, by simpa using h.2.2.2.2⟩

/-! ### Claim C4: failed lend preconditions -/

/-- C4 (counterexample): with an empty inventory, a lend attempt by a new
borrower fails its precondition (no item with positive stock), yet the users
map is mutated — an empty `User` record for the borrower is created before
any check runs. -/
theorem C4_counterexample :
    (lend_item ⟨[], [], none, none⟩ "alice" 1 1).2 = Outcome.noItems ∧
    (lend_item ⟨[], [], none, none⟩ "alice" 1 1).1.users ≠
      (⟨[], [], none, none⟩ : SysState).users := by decide

/-- C4 (amended): when a lend attempt fails one of its preconditions (no
item with positive stock, invalid selection, invalid quantity), the
inventory, the transaction log and the inventory file are unchanged, and the
users map is unchanged except that an empty entry for the borrower is
created when the borrower was not present. -/
theorem C4_lend_failure_no_side_effects (s : SysState) (b : String) (sel qty : Int)
    (h : (lend_item s b sel qty).2 = Outcome.noItems ∨
         (lend_item s b sel qty).2 = Outcome.invalidSelection ∨
         (lend_item s b sel qty).2 = Outcome.invalidQty) :
    (lend_item s b sel qty).1.inventory = s.inventory ∧
    (lend_item s b sel qty).1.invFile = s.invFile ∧
    (lend_item s b sel qty).1.logFile = s.logFile ∧
    (lend_item s b sel qty).1.users = usersWithBorrower (pyStrip b) s.users := by
  unfold lend_item at h ⊢
  simp only [] at h ⊢
  split_ifs at h ⊢ <;> try exact ⟨rfl, rfl, rfl, rfl⟩
  all_goals
    exfalso
    split at h <;> rcases h with h | h | h <;> simp at h

/-- Witness for C4 at a concrete input: bob is already known, lending from
an empty inventory fails and leaves the users map as it was. -/
theorem C4_witness :
    (lend_item ⟨[], [("bob", [])], none, none⟩ "bob" 1 1).1.users = [("bob", [])] := by
  have h := C4_lend_failure_no_side_effects ⟨[], [("bob", [])], none, none⟩ "bob" 1 1
    (Or.inl (by decide))
  rw [h.2.2.2]
  decide

/-! ### The available-items comprehension on a well-formed inventory -/

theorem availableItems_loop (inv : List (String × Int)) (acc : List (String × Int))
    (hdisj : ∀ p ∈ inv, p.1 ∉ dictKeys acc)
    (hN : (dictKeys inv).Nodup)
    (hL : ∀ p ∈ inv, pyLower p.1 = p.1) :
    inv.foldl (fun acc p => if p.2 > 0 then dictInsert (pyLower p.1) p.2 acc else acc) acc =
      acc ++ inv.filter (fun p => decide (p.2 > 0)) := by
  induction inv generalizing acc with
  | nil => simp
  | cons p rest ih =>
    obtain ⟨k, v⟩ := p
    simp only [dictKeys, List.map_cons, List.nodup_cons] at hN
    simp only [List.foldl_cons]
    by_cases hp : v > 0
    · rw [if_pos hp]
      have hk : pyLower (k, v).1 = (k, v).1 := hL (k, v) (by simp)
      simp only at hk
      rw [hk, dictInsert_of_not_mem _ (hdisj (k, v) (by simp))]
      rw [ih (acc ++ [(k, v)]) ?_ (by simpa [dictKeys] using hN.2)
        (fun r hr => hL r (by simp [hr]))]
      · rw [List.filter_cons_of_pos (by simpa using hp)]
        simp
      · intro r hr
        rw [dictKeys_append]
        simp only [List.mem_append]
        push_neg
        refine ⟨hdisj r (by simp [hr]), ?_⟩
        have : r.1 ∈ dictKeys rest := List.mem_map_of_mem Prod.fst hr
        simp only [dictKeys] at this
        intro hmem
        simp only [dictKeys, List.map_cons, List.map_nil, List.mem_singleton] at hmem
        exact hN.1 (hmem ▸ this)
    · rw [if_neg hp]
      rw [ih acc (fun r hr => hdisj r (by simp [hr])) (by simpa [dictKeys] using hN.2)
        (fun r hr => hL r (by simp [hr]))]
      rw [List.filter_cons_of_neg (by simpa using hp)]

theorem availableItems_eq (inv : List (String × Int))
    (hN : (dictKeys inv).Nodup)
    (hL : ∀ p ∈ inv, pyLower p.1 = p.1) :
    availableItems inv = inv.filter (fun p => decide (p.2 > 0)) := by
  rw [availableItems]
  simpa using availableItems_loop inv [] (by simp [dictKeys]) hN hL

/-! ### Unfolding lemmas for the two interactive operations on a literal
state (definitional; they only reduce the record updates). -/

theorem lend_item_unfold (inv : List (String × Int)) (us : Users)
    (f g : Option (List String)) (bIn : String) (sel qty : Int) :
    lend_item ⟨inv, us, f, g⟩ bIn sel qty =
      (let b := pyStrip bIn
       let us1 := usersWithBorrower b us
       let avail := availableItems inv
       if avail = [] then ((⟨inv, us1, f, g⟩ : SysState), Outcome.noItems)
       else if sel - 1 < 0 ∨ sel - 1 ≥ (avail.length : Int) then
         ((⟨inv, us1, f, g⟩ : SysState), Outcome.invalidSelection)
       else
         let chosen := (avail.getD (sel - 1).toNat ("", 0)).1
         let availQty := (dictLookup chosen avail).getD 0
         if qty ≤ 0 ∨ qty > availQty then ((⟨inv, us1, f, g⟩ : SysState), Outcome.invalidQty)
         else
           let borrowed' := User.borrow_item ((dictLookup b us1).getD []) chosen qty
           let us2 := dictInsert b borrowed' us1
           match dictLookup chosen inv with
           | none => ((⟨inv, us2, f, g⟩ : SysState), Outcome.keyError)
           | some v =>
             (save_inventory (log_transaction ⟨dictInsert chosen (v - qty) inv, us2, f, g⟩
               "Lend" b chosen qty), Outcome.success)) := rfl

theorem return_item_unfold (inv : List (String × Int)) (us : Users)
    (f g : Option (List String)) (bIn : String) (sel qty : Int) :
    return_item ⟨inv, us, f, g⟩ bIn sel qty =
      (let b := pyStrip bIn
       match dictLookup b us with
       | none => ((⟨inv, us, f, g⟩ : SysState), Outcome.noRecords)
       | some borrowed =>
         if borrowed = [] then ((⟨inv, us, f, g⟩ : SysState), Outcome.noRecords)
         else if sel - 1 < 0 ∨ sel - 1 ≥ (borrowed.length : Int) then
           ((⟨inv, us, f, g⟩ : SysState), Outcome.invalidSelection)
         else
           let chosen := (borrowed.getD (sel - 1).toNat ("", 0)).1
           let r := User.return_item borrowed chosen qty
           if r.1 then
             let us2 := dictInsert b r.2 us
             match dictLookup chosen inv with
             | none => ((⟨inv, us2, f, g⟩ : SysState), Outcome.keyError)
             | some v =>
               (save_inventory (log_transaction ⟨dictInsert chosen (v + qty) inv, us2, f, g⟩
                 "Return" b chosen qty), Outcome.success)
           else ((⟨inv, us, f, g⟩ : SysState), Outcome.insufficientBorrowed)) := rfl

/-! ### The lend operation on a well-formed inventory -/

theorem lend_item_success_eq (inv : List (String × Int)) (us : Users)
    (f g : Option (List String)) (u item : String) (q k : Int) (i : Nat)
    (hN : (dictKeys inv).Nodup) (hL : ∀ p ∈ inv, pyLower p.1 = p.1)
    (hq : dictLookup item inv = some q)
    (hi : (inv.filter (fun p => decide (p.2 > 0)))[i]? = some (item, q))
    (hk : 0 < k) (hkq : k ≤ q) :
    lend_item ⟨inv, us, f, g⟩ u ((i : Int) + 1) k =
      (save_inventory (log_transaction
          ⟨dictInsert item (q - k) inv,
           dictInsert (pyStrip u)
             (User.borrow_item
               ((dictLookup (pyStrip u) (usersWithBorrower (pyStrip u) us)).getD []) item k)
             (usersWithBorrower (pyStrip u) us),
           f, g⟩
          "Lend" (pyStrip u) item k),
        Outcome.success) := by
  have havail : availableItems inv = inv.filter (fun p => decide (p.2 > 0)) :=
    availableItems_eq inv hN hL
  have hlen : i < (inv.filter (fun p => decide (p.2 > 0))).length := by
    rcases List.getElem?_eq_some.mp hi with ⟨hh, _⟩
    exact hh
  have hne : inv.filter (fun p => decide (p.2 > 0)) ≠ [] := by
    intro h0
    rw [h0] at hi
    simp at hi
  have hgetD : (inv.filter (fun p => decide (p.2 > 0))).getD i ("", 0) = (item, q) := by
    rw [List.getD_eq_getElem?_getD, hi]
    rfl
  have hNf : (dictKeys (inv.filter (fun p => decide (p.2 > 0)))).Nodup :=
    List.Nodup.sublist (List.Sublist.map Prod.fst (List.filter_sublist inv)) hN
  have hmemf : (item, q) ∈ inv.filter (fun p => decide (p.2 > 0)) := by
    rcases List.getElem?_eq_some.mp hi with ⟨hh, heq⟩
    rw [← heq]
    exact List.getElem_mem hh
  have hlookf : dictLookup item (inv.filter (fun p => decide (p.2 > 0))) = some q :=
    dictLookup_of_mem_nodup hNf hmemf
  rw [lend_item_unfold]
  simp only []
  rw [havail, if_neg hne]
  rw [show (i : Int) + 1 - 1 = (i : Int) by ring]
  rw [if_neg (by omega : ¬((i : Int) < 0 ∨
    (i : Int) ≥ ((inv.filter (fun p => decide (p.2 > 0))).length : Int)))]
  rw [Int.toNat_natCast, hgetD]
  simp only []
  rw [hlookf]
  simp only [Option.getD_some]
  rw [if_neg (by omega : ¬(k ≤ 0 ∨ k > q))]
  rw [hq]

theorem lend_item_overdraw_eq (inv : List (String × Int)) (us : Users)
    (f g : Option (List String)) (u item : String) (q k : Int) (i : Nat)
    (hN : (dictKeys inv).Nodup) (hL : ∀ p ∈ inv, pyLower p.1 = p.1)
    (hi : (inv.filter (fun p => decide (p.2 > 0)))[i]? = some (item, q))
    (hqk : q < k) :
    lend_item ⟨inv, us, f, g⟩ u ((i : Int) + 1) k =
      ((⟨inv, usersWithBorrower (pyStrip u) us, f, g⟩ : SysState), Outcome.invalidQty) := by
  have havail : availableItems inv = inv.filter (fun p => decide (p.2 > 0)) :=
    availableItems_eq inv hN hL
  have hlen : i < (inv.filter (fun p => decide (p.2 > 0))).length := by
    rcases List.getElem?_eq_some.mp hi with ⟨hh, _⟩
    exact hh
  have hne : inv.filter (fun p => decide (p.2 > 0)) ≠ [] := by
    intro h0
    rw [h0] at hi
    simp at hi
  have hgetD : (inv.filter (fun p => decide (p.2 > 0))).getD i ("", 0) = (item, q) := by
    rw [List.getD_eq_getElem?_getD, hi]
    rfl
  have hNf : (dictKeys (inv.filter (fun p => decide (p.2 > 0)))).Nodup :=
    List.Nodup.sublist (List.Sublist.map Prod.fst (List.filter_sublist inv)) hN
  have hmemf : (item, q) ∈ inv.filter (fun p => decide (p.2 > 0)) := by
    rcases List.getElem?_eq_some.mp hi with ⟨hh, heq⟩
    rw [← heq]
    exact List.getElem_mem hh
  have hlookf : dictLookup item (inv.filter (fun p => decide (p.2 > 0))) = some q :=
    dictLookup_of_mem_nodup hNf hmemf
  rw [lend_item_unfold]
  simp only []
  rw [havail, if_neg hne]
  rw [show (i : Int) + 1 - 1 = (i : Int) by ring]
  rw [if_neg (by omega : ¬((i : Int) < 0 ∨
    (i : Int) ≥ ((inv.filter (fun p => decide (p.2 > 0))).length : Int)))]
  rw [Int.toNat_natCast, hgetD]
  simp only []
  rw [hlookf]
  simp only [Option.getD_some]
  rw [if_pos (Or.inr hqk)]

/-- The borrowed dict the lend path reads for the borrower is the same
whether or not the empty `User` was just created. -/
theorem usersWithBorrower_getD (b : String) (us : Users) :
    (dictLookup b (usersWithBorrower b us)).getD [] = (dictLookup b us).getD [] := by
  rw [usersWithBorrower]
  by_cases hc : dictContains b us
  · rw [if_pos hc]
  · rw [if_neg hc, dictLookup_dictInsert_self]
    have hnone : dictLookup b us = none := by
      by_contra hsome
      exact hc (by simpa [dictContains, Option.isSome_iff_ne_none] using hsome)
    rw [hnone]
    rfl

/-! ### Claim C5: lend semantics -/

/-- C5: for an item listed with stock `q > 0` at (1-based) selection `i + 1`
of the lending menu, and a user with no prior borrowed entry for it: lending
`k` with `0 < k ≤ q` succeeds, leaves the item's stock at `q - k` and the
user's borrowed entry at `k`; lending `k > q` fails and leaves the stock at
`q`.  (Inventory keys are the program's normalized lowercase names, unique
as in a Python dict.) -/
theorem C5_lend_semantics (inv : List (String × Int)) (us : Users)
    (f g : Option (List String)) (u item : String) (q k : Int) (i : Nat)
    (hN : (dictKeys inv).Nodup) (hL : ∀ p ∈ inv, pyLower p.1 = p.1)
    (hq : dictLookup item inv = some q)
    (hi : (inv.filter (fun p => decide (p.2 > 0)))[i]? = some (item, q))
    (hfresh : dictLookup item ((dictLookup (pyStrip u) us).getD []) = none) :
    (0 < k ∧ k ≤ q →
      (lend_item ⟨inv, us, f, g⟩ u ((i : Int) + 1) k).2 = Outcome.success ∧
      dictLookup item (lend_item ⟨inv, us, f, g⟩ u ((i : Int) + 1) k).1.inventory =
        some (q - k) ∧
      dictLookup item
        ((dictLookup (pyStrip u)
          (lend_item ⟨inv, us, f, g⟩ u ((i : Int) + 1) k).1.users).getD []) = some k) ∧
    (q < k →
      (lend_item ⟨inv, us, f, g⟩ u ((i : Int) + 1) k).2 ≠ Outcome.success ∧
      dictLookup item (lend_item ⟨inv, us, f, g⟩ u ((i : Int) + 1) k).1.inventory = some q) := by
  constructor
  · rintro ⟨hk, hkq⟩
    rw [lend_item_success_eq inv us f g u item q k i hN hL hq hi hk hkq]
    refine ⟨rfl, ?_, ?_⟩
    · simp only [save_inventory, log_transaction]
      rw [dictLookup_dictInsert_self]
    · simp only [save_inventory, log_transaction]
      rw [dictLookup_dictInsert_self]
      simp only [Option.getD_some]
      rw [borrow_item_lookup, if_pos rfl, usersWithBorrower_getD, hfresh]
      simp
  · intro hqk
    rw [lend_item_overdraw_eq inv us f g u item q k i hN hL hi hqk]
    exact ⟨by simp, by simpa using hq⟩

/-- Witness for C5 at a concrete input: lending 3 of 5 hammers to alice. -/
theorem C5_witness :
    (lend_item ⟨[("hammer", 5)], [], none, none⟩ "alice" 1 3).2 = Outcome.success ∧
    dictLookup "hammer"
      (lend_item ⟨[("hammer", 5)], [], none, none⟩ "alice" 1 3).1.inventory = some 2 ∧
    dictLookup "hammer"
      ((dictLookup "alice"
        (lend_item ⟨[("hammer", 5)], [], none, none⟩ "alice" 1 3).1.users).getD []) = some 3 := by
  have h := (C5_lend_semantics [("hammer", 5)] [] none none "alice" "hammer" 5 3 0
    (by decide) (by decide) (by decide) (by decide) (by decide)).1 ⟨by decide, by decide⟩
  simpa using h

/-! ### Claim C6: return after lend -/

/-- C6 (counterexample): when alice already holds 1 hammer, lending her 2
and then returning 2 restores the stock to 5 but does *not* remove her
borrowed entry — it returns to 1 — so ReturnItem is not an exact inverse
for every user. -/
theorem C6_counterexample :
    (lend_item ⟨[("hammer", 5)], [("alice", [("hammer", 1)])], none, none⟩ "alice" 1 2).2 =
        Outcome.success ∧
    (return_item (lend_item ⟨[("hammer", 5)], [("alice", [("hammer", 1)])], none, none⟩
        "alice" 1 2).1 "alice" 1 2).2 = Outcome.success ∧
    dictLookup "hammer"
        (return_item (lend_item ⟨[("hammer", 5)], [("alice", [("hammer", 1)])], none, none⟩
          "alice" 1 2).1 "alice" 1 2).1.inventory = some 5 ∧
    dictLookup "hammer"
        ((dictLookup "alice"
          (return_item (lend_item ⟨[("hammer", 5)], [("alice", [("hammer", 1)])], none, none⟩
            "alice" 1 2).1 "alice" 1 2).1.users).getD []) = some 1 := by decide

/-- C6 (amended): for a user with no prior borrowed entry for the item,
lending `k` (with `0 < k ≤ q`) and then returning `k` restores the item's
stock to `q` and removes the user's borrowed entry for the item. -/
theorem C6_lend_return_roundtrip (inv : List (String × Int)) (us : Users)
    (f g : Option (List String)) (u item : String) (q k : Int) (i : Nat)
    (hN : (dictKeys inv).Nodup) (hL : ∀ p ∈ inv, pyLower p.1 = p.1)
    (hq : dictLookup item inv = some q)
    (hi : (inv.filter (fun p => decide (p.2 > 0)))[i]? = some (item, q))
    (hfresh : dictLookup item ((dictLookup (pyStrip u) us).getD []) = none)
    (hk : 0 < k) (hkq : k ≤ q) :
    (return_item (lend_item ⟨inv, us, f, g⟩ u ((i : Int) + 1) k).1 u
        ((((dictLookup (pyStrip u) us).getD []).length : Int) + 1) k).2 = Outcome.success ∧
    dictLookup item
      (return_item (lend_item ⟨inv, us, f, g⟩ u ((i : Int) + 1) k).1 u
        ((((dictLookup (pyStrip u) us).getD []).length : Int) + 1) k).1.inventory = some q ∧
    dictLookup item
      ((dictLookup (pyStrip u)
        (return_item (lend_item ⟨inv, us, f, g⟩ u ((i : Int) + 1) k).1 u
          ((((dictLookup (pyStrip u) us).getD []).length : Int) + 1) k).1.users).getD [])
      = none := by
  rw [lend_item_success_eq inv us f g u item q k i hN hL hq hi hk hkq]
  rw [usersWithBorrower_getD]
  generalize hOld : (dictLookup (pyStrip u) us).getD [] = old
  rw [hOld] at hfresh
  have hkeys : item ∉ dictKeys old := dictLookup_eq_none_iff.mp hfresh
  have hcont : dictContains item old = false := by
    rw [dictContains, hfresh]
    rfl
  have hborrow : User.borrow_item old item k = old ++ [(item, k)] := by
    rw [User.borrow_item, if_neg (by simp [hcont])]
    exact dictInsert_of_not_mem _ hkeys
  rw [hborrow]
  simp only [save_inventory, log_transaction]
  rw [return_item_unfold]
  simp only []
  rw [dictLookup_dictInsert_self]
  simp only []
  rw [if_neg (by simp : ¬(old ++ [(item, k)] = []))]
  rw [show ((old.length : Int) + 1 - 1) = (old.length : Int) by ring]
  rw [if_neg (by
    simp only [List.length_append, List.length_cons, List.length_nil]
    push_cast
    omega : ¬((old.length : Int) < 0 ∨
      (old.length : Int) ≥ ((old ++ [(item, k)]).length : Int)))]
  rw [Int.toNat_natCast]
  have hat : (old ++ [(item, k)]).getD old.length ("", 0) = (item, k) := by
    rw [List.getD_eq_getElem?_getD, List.getElem?_append_right (le_refl old.length)]
    simp
  rw [hat]
  simp only []
  have hlook2 : dictLookup item (old ++ [(item, k)]) = some k := by
    rw [dictLookup_append_of_not_mem _ hkeys]
    simp [dictLookup]
  rw [User.return_item, hlook2]
  simp only [ge_iff_le]
  rw [if_pos (le_refl k), if_pos (by ring : k - k = 0)]
  rw [dictErase_append_singleton _ hkeys]
  simp only [if_pos rfl]
  rw [dictLookup_dictInsert_self]
  simp only [if_true]
  refine ⟨trivial, ?_, ?_⟩
  · simp only [save_inventory, log_transaction]
    rw [dictLookup_dictInsert_self]
    rw [sub_add_cancel]
  · simp only [save_inventory, log_transaction]
    rw [dictLookup_dictInsert_self]
    simp only [Option.getD_some]
    exact hfresh

/-- Witness for C6 at a concrete input: lend 3 of 5 hammers to a fresh
alice, then return 3. -/
theorem C6_witness :
    (return_item (lend_item ⟨[("hammer", 5)], [], none, none⟩ "alice" 1 3).1
        "alice" 1 3).2 = Outcome.success ∧
    dictLookup "hammer"
      (return_item (lend_item ⟨[("hammer", 5)], [], none, none⟩ "alice" 1 3).1
        "alice" 1 3).1.inventory = some 5 ∧
    dictLookup "hammer"
      ((dictLookup "alice"
        (return_item (lend_item ⟨[("hammer", 5)], [], none, none⟩ "alice" 1 3).1
          "alice" 1 3).1.users).getD []) = none := by
  have h := C6_lend_return_roundtrip [("hammer", 5)] [] none none "alice" "hammer" 5 3 0
    (by decide) (by decide) (by decide) (by decide) (by decide) (by decide) (by decide)
  simpa using h

/-! ### Decimal rendering and parsing -/

theorem digitChar_toNat (d : Nat) (h : d < 10) : (Char.ofNat (48 + d)).toNat = 48 + d := by
  interval_cases d <;> decide

theorem natToCharsAux_mem {fuel n : Nat} (h : n < fuel) (P : Char → Prop)
    (hP : ∀ d, d < 10 → P (Char.ofNat (48 + d))) :
    ∀ c ∈ natToCharsAux fuel n, P c := by
  induction fuel generalizing n with
  | zero => exact absurd h (by omega)
  | succ fuel ih =>
    intro c hc
    rw [natToCharsAux] at hc
    by_cases h10 : n < 10
    · rw [if_pos h10] at hc
      simp only [List.mem_singleton] at hc
      subst hc
      exact hP n h10
    · rw [if_neg h10] at hc
      rcases List.mem_append.mp hc with hc | hc
      · exact ih (by omega) c hc
      · simp only [List.mem_singleton] at hc
        subst hc
        exact hP _ (Nat.mod_lt _ (by omega))

theorem natToCharsAux_ne_nil {fuel n : Nat} (h : n < fuel) : natToCharsAux fuel n ≠ [] := by
  cases fuel with
  | zero => exact absurd h (by omega)
  | succ fuel =>
    rw [natToCharsAux]
    by_cases h10 : n < 10
    · rw [if_pos h10]; simp
    · rw [if_neg h10]; simp

theorem parseNatDigits_append (a : List Char) (c : Char) :
    parseNatDigits (a ++ [c]) = 10 * parseNatDigits a + (c.toNat - 48) := by
  rw [parseNatDigits, parseNatDigits, List.foldl_append]
  rfl

theorem parseNat_natToCharsAux {fuel n : Nat} (h : n < fuel) :
    parseNatDigits (natToCharsAux fuel n) = n := by
  induction fuel generalizing n with
  | zero => exact absurd h (by omega)
  | succ fuel ih =>
    rw [natToCharsAux]
    by_cases h10 : n < 10
    · rw [if_pos h10, parseNatDigits]
      simp only [List.foldl_cons, List.foldl_nil]
      rw [digitChar_toNat n h10]
      omega
    · rw [if_neg h10, parseNatDigits_append, ih (by omega),
        digitChar_toNat _ (Nat.mod_lt _ (by omega))]
      omega

/-- The character-class facts needed about every digit of a rendered
number. -/
theorem natToChars_charFacts (n : Nat) :
    ∀ c ∈ natToChars n,
      c.isWhitespace = false ∧ c ≠ ':' ∧ c ≠ '-' ∧ c ≠ '+' ∧ c.isDigit = true := by
  rw [natToChars]
  refine natToCharsAux_mem (by omega) _ ?_
  intro d hd
  interval_cases d <;> exact ⟨by decide, by decide, by decide, by decide, by decide⟩

theorem natToChars_ne_nil (n : Nat) : natToChars n ≠ [] := by
  rw [natToChars]
  exact natToCharsAux_ne_nil (by omega)

theorem parseNat_natToChars (n : Nat) : parseNatDigits (natToChars n) = n := by
  rw [natToChars]
  exact parseNat_natToCharsAux (by omega)

/-! ### Stripping -/

theorem dropWhile_head (p : Char → Bool) (s : List Char)
    (h : ∀ c ∈ s.head?, p c = false) : s.dropWhile p = s := by
  cases s with
  | nil => rfl
  | cons c t => simp [List.dropWhile_cons, h c (by simp)]

theorem stripChars_eq_self_ends (s : List Char)
    (h1 : ∀ c ∈ s.head?, c.isWhitespace = false)
    (h2 : ∀ c ∈ s.reverse.head?, c.isWhitespace = false) :
    stripChars s = s := by
  rw [stripChars, dropWhile_head _ _ h1, dropWhile_head _ _ h2, List.reverse_reverse]

/-! ### `str(q)` and `int(s)` round-trip -/

theorem pyStr_chars (q : Int) :
    ∀ c ∈ (pyStr q).data, c.isWhitespace = false ∧ c ≠ ':' := by
  rw [pyStr]
  by_cases hq : q < 0
  · rw [if_pos hq]
    intro c hc
    rcases List.mem_cons.mp hc with hc | hc
    · subst hc; exact ⟨by decide, by decide⟩
    · have := natToChars_charFacts (-q).toNat c hc
      exact ⟨this.1, this.2.1⟩
  · rw [if_neg hq]
    intro c hc
    have := natToChars_charFacts q.toNat c hc
    exact ⟨this.1, this.2.1⟩

theorem pyStr_data_ne_nil (q : Int) : (pyStr q).data ≠ [] := by
  rw [pyStr]
  by_cases hq : q < 0
  · rw [if_pos hq]; simp
  · rw [if_neg hq]; exact natToChars_ne_nil _

theorem stripChars_pyStr (q : Int) : stripChars (pyStr q).data = (pyStr q).data := by
  refine stripChars_eq_self_ends _ ?_ ?_
  · intro c hc
    cases hd : (pyStr q).data with
    | nil => rw [hd] at hc; simp at hc
    | cons a t =>
      rw [hd] at hc
      simp only [List.head?_cons, Option.mem_def, Option.some_inj] at hc
      subst hc
      exact (pyStr_chars q a (by rw [hd]; simp)).1
  · intro c hc
    cases hd : (pyStr q).data.reverse with
    | nil => rw [hd] at hc; simp at hc
    | cons a t =>
      rw [hd] at hc
      simp only [List.head?_cons, Option.mem_def, Option.some_inj] at hc
      subst hc
      have hmem : a ∈ (pyStr q).data := by
        rw [← List.mem_reverse, hd]
        simp
      exact (pyStr_chars q a hmem).1

theorem pyInt?_pyStr (q : Int) : pyInt? (pyStr q) = some q := by
  rw [pyInt?, stripChars_pyStr, pyStr]
  by_cases hq : q < 0
  · rw [if_pos hq]
    have hall : (natToChars (-q).toNat).all Char.isDigit = true :=
      List.all_eq_true.mpr fun c hc => (natToChars_charFacts (-q).toNat c hc).2.2.2.2
    simp only []
    rw [if_true, if_pos ⟨natToChars_ne_nil _, hall⟩, parseNat_natToChars]
    congr 1
    omega
  · rw [if_neg hq]
    cases hd : natToChars q.toNat with
    | nil => exact absurd hd (natToChars_ne_nil _)
    | cons a t =>
      have ha := natToChars_charFacts q.toNat a (by rw [hd]; simp)
      have hall : (a :: t).all Char.isDigit = true := by
        rw [← hd]
        exact List.all_eq_true.mpr fun c hc => (natToChars_charFacts q.toNat c hc).2.2.2.2
      simp only []
      rw [if_neg ha.2.2.1, if_neg ha.2.2.2.1, if_pos hall, ← hd, parseNat_natToChars]
      congr 1
      omega

/-! ### Splitting -/

theorem beginsWith_append (p x : List Char) : beginsWith p (p ++ x) = true := by
  induction p with
  | nil => rfl
  | cons a as ih => simp [beginsWith, ih]

theorem splitCharsAux_stable (s0 : Char) (sep : List Char) :
    ∀ fuel fuel' (s : List Char), s.length < fuel → s.length < fuel' →
      splitCharsAux s0 sep fuel s = splitCharsAux s0 sep fuel' s := by
  intro fuel
  induction fuel with
  | zero => intro fuel' s h _; exact absurd h (by omega)
  | succ fuel ih =>
    intro fuel' s h h'
    cases fuel' with
    | zero => exact absurd h' (by omega)
    | succ fuel' =>
      cases s with
      | nil => rfl
      | cons c rest =>
        simp only [List.length_cons] at h h'
        simp only [splitCharsAux]
        by_cases hb : beginsWith (s0 :: sep) (c :: rest) = true
        · rw [if_pos hb, if_pos hb]
          have hdr : (rest.drop sep.length).length ≤ rest.length := by simp
          rw [ih fuel' _ (by omega) (by omega)]
        · rw [if_neg hb, if_neg hb, ih fuel' rest (by omega) (by omega)]

theorem splitCharsAux_noSep (s0 : Char) (sep : List Char) :
    ∀ fuel (b : List Char), b.length < fuel → (∀ c ∈ b, c ≠ s0) →
      splitCharsAux s0 sep fuel b = [b] := by
  intro fuel
  induction fuel with
  | zero => intro b h _; exact absurd h (by omega)
  | succ fuel ih =>
    intro b h hb
    cases b with
    | nil => rfl
    | cons c rest =>
      have hcs : (s0 == c) = false := beq_eq_false_iff_ne.mpr (Ne.symm (hb c (by simp)))
      have hbw : beginsWith (s0 :: sep) (c :: rest) = false := by
        simp [beginsWith, hcs]
      simp only [List.length_cons] at h
      simp only [splitCharsAux]
      rw [if_neg (by simp [hbw])]
      rw [ih rest (by omega) (fun c' hc' => hb c' (by simp [hc']))]

theorem splitCharsAux_append (s0 : Char) (sep : List Char) :
    ∀ fuel (a b : List Char), (a ++ (s0 :: sep) ++ b).length < fuel →
      (∀ c ∈ a, c ≠ s0) →
      splitCharsAux s0 sep fuel (a ++ (s0 :: sep) ++ b) =
        a :: splitCharsAux s0 sep (b.length + 1) b := by
  intro fuel
  induction fuel with
  | zero => intro a b h _; exact absurd h (by omega)
  | succ fuel ih =>
    intro a b h ha
    cases a with
    | nil =>
      simp only [List.nil_append]
      rw [List.cons_append]
      have hbw : beginsWith (s0 :: sep) (s0 :: (sep ++ b)) = true := by
        have := beginsWith_append (s0 :: sep) b
        simpa [List.cons_append] using this
      simp only [splitCharsAux]
      rw [if_pos hbw, List.drop_left]
      congr 1
      apply splitCharsAux_stable
      · simp only [List.nil_append, List.length_append, List.length_cons] at h
        omega
      · omega
    | cons c a' =>
      have hcs : (s0 == c) = false := beq_eq_false_iff_ne.mpr (Ne.symm (ha c (by simp)))
      simp only [List.cons_append]
      have hbw : beginsWith (s0 :: sep) (c :: (a' ++ (s0 :: sep) ++ b)) = false := by
        simp [beginsWith, hcs]
      simp only [splitCharsAux]
      rw [if_neg (by simpa [List.cons_append] using hbw)]
      rw [show a' ++ s0 :: sep ++ b = a' ++ (s0 :: sep) ++ b from rfl]
      rw [ih a' b (by simp only [List.length_append, List.length_cons] at h ⊢; omega)
        (fun c' hc' => ha c' (by simp [hc']))]

/-! ### One saved inventory line parses back -/

theorem valid_name_chars {n : String} (h : is_valid_item_name n = true) :
    n.data ≠ [] ∧ ∀ c ∈ n.data, c.isAlpha = true := by
  rw [is_valid_item_name, Bool.and_eq_true, Bool.and_eq_true] at h
  refine ⟨?_, List.all_eq_true.mp h.1.2⟩
  intro hnil
  have h11 := h.1.1
  rw [hnil] at h11
  simp at h11

theorem alpha_char_facts {c : Char} (h : c.isAlpha = true) :
    c.isWhitespace = false ∧ c ≠ ':' := by
  constructor
  · by_contra hw
    have hw' : c.isWhitespace = true := by simpa using hw
    have hcases : c = ' ' ∨ c = '\t' ∨ c = '\n' ∨ c = '\x0d' := by
      simp only [Char.isWhitespace, Bool.or_eq_true, decide_eq_true_eq] at hw'
      tauto
    rcases hcases with h1 | h1 | h1 | h1 <;> (subst h1; exact absurd h (by decide))
  · intro e
    rw [e] at h
    exact absurd h (by decide)

theorem parseInvLine_roundtrip (n : String) (q : Int)
    (hname : is_valid_item_name n = true) :
    parseInvLine (n ++ ": " ++ pyStr q) = some (n, q) := by
  obtain ⟨hne, halpha⟩ := valid_name_chars hname
  have hdata : (n ++ ": " ++ pyStr q).data = n.data ++ [':', ' '] ++ (pyStr q).data := by
    rw [String.data_append, String.data_append]
  have hstrip : stripChars (n.data ++ [':', ' '] ++ (pyStr q).data) =
      n.data ++ [':', ' '] ++ (pyStr q).data := by
    refine stripChars_eq_self_ends _ ?_ ?_
    · intro c hc
      cases hn : n.data with
      | nil => exact absurd hn hne
      | cons a t =>
        rw [hn] at hc
        simp only [List.cons_append, List.head?_cons, Option.mem_def, Option.some_inj] at hc
        subst hc
        exact (alpha_char_facts (halpha a (by rw [hn]; simp))).1
    · intro c hc
      cases hp : (pyStr q).data.reverse with
      | nil =>
        exact absurd (List.reverse_eq_nil_iff.mp hp) (pyStr_data_ne_nil q)
      | cons a t =>
        rw [List.reverse_append, List.reverse_append, hp] at hc
        simp only [List.cons_append, List.head?_cons, Option.mem_def, Option.some_inj] at hc
        subst hc
        have hmem : a ∈ (pyStr q).data := by
          rw [← List.mem_reverse, hp]
          simp
        exact (pyStr_chars q a hmem).1
  have hps : ∀ l : List Char, pySplit ⟨l⟩ ": " = (splitChars ':' [' '] l).map
      (fun c => (⟨c⟩ : String)) := fun l => rfl
  rw [parseInvLine, pyStrip, hdata, hstrip, hps, splitChars]
  rw [show ([':', ' '] : List Char) = ':' :: [' '] from rfl]
  rw [splitCharsAux_append ':' [' '] _ n.data (pyStr q).data (by omega)
    (fun c hc => (alpha_char_facts (halpha c hc)).2)]
  rw [splitCharsAux_noSep ':' [' '] _ (pyStr q).data (by omega)
    (fun c hc => (pyStr_chars q c hc).2)]
  simp only [List.map_cons, List.map_nil]
  rw [show (⟨(pyStr q).data⟩ : String) = pyStr q from rfl]
  rw [show (⟨n.data⟩ : String) = n from rfl]
  simp [pyInt?_pyStr]

/-! ### Claim C8: save then load is the identity -/

theorem loadInventoryLoop_saved (inv : List (String × Int)) (acc : List (String × Int))
    (hdisj : ∀ p ∈ inv, p.1 ∉ dictKeys acc)
    (hN : (dictKeys inv).Nodup)
    (hname : ∀ p ∈ inv, is_valid_item_name p.1 = true) :
    loadInventoryLoop acc (inv.map (fun p => p.1 ++ ": " ++ pyStr p.2)) = acc ++ inv := by
  induction inv generalizing acc with
  | nil => simp [loadInventoryLoop]
  | cons p rest ih =>
    obtain ⟨k, v⟩ := p
    simp only [dictKeys, List.map_cons, List.nodup_cons] at hN
    rw [List.map_cons, loadInventoryLoop]
    rw [parseInvLine_roundtrip k v (hname (k, v) (by simp))]
    simp only []
    rw [dictInsert_of_not_mem _ (hdisj (k, v) (by simp))]
    rw [ih (acc ++ [(k, v)]) ?_ (by simpa [dictKeys] using hN.2)
      (fun r hr => hname r (by simp [hr]))]
    · simp
    · intro r hr
      rw [dictKeys_append]
      simp only [List.mem_append]
      push_neg
      refine ⟨hdisj r (by simp [hr]), ?_⟩
      intro hmem
      simp only [dictKeys, List.map_cons, List.map_nil, List.mem_singleton] at hmem
      have : r.1 ∈ List.map Prod.fst rest := List.mem_map_of_mem Prod.fst hr
      exact hN.1 (hmem ▸ this)

/-- C8: for an inventory whose keys are valid item names (alphabetic, longer
than 2) with unique keys, saving to the inventory file and loading that file
back reproduces exactly the same mapping. -/
theorem C8_save_load_roundtrip (s : SysState)
    (hN : (dictKeys s.inventory).Nodup)
    (hname : ∀ p ∈ s.inventory, is_valid_item_name p.1 = true) :
    ∃ lines, (save_inventory s).invFile = some lines ∧
      load_inventory lines = s.inventory := by
  refine ⟨_, rfl, ?_⟩
  rw [load_inventory]
  simpa using loadInventoryLoop_saved s.inventory [] (by simp [dictKeys]) hN hname

/-- Witness for C8 at the spec's example inventory. -/
theorem C8_witness :
    load_inventory
        ((save_inventory ⟨[("hammer", 5), ("drill", 2)], [], none, none⟩).invFile.getD [])
      = [("hammer", 5), ("drill", 2)] := by
  obtain ⟨lines, h1, h2⟩ := C8_save_load_roundtrip
    ⟨[("hammer", 5), ("drill", 2)], [], none, none⟩ (by decide) (by decide)
  rw [h1]
  simpa using h2

end Inventory2
